import Mathlib

/-!
Shallow embedding of `cod2factoriolab.py`: a one-shot batch converter from
Captain-of-Data (CoD) JSON dumps (products, machines/buildings with nested
recipes) to the Factoriolab data schema.

The embedding models the naming-normalization and cross-reference pipeline:
 * `convertCod2FL` — the identifier translator built on the regex
   `[A-Z][a-z]+|[A-Z]{2,}|\d[A-Z]?` (`REX_CoDNaming`) and `str.lower`;
 * `matchProdType` — `REX_ProdType = ([A-Z][a-z0-9]+)ProductProto`, used with
   `re.match`, returning group 1;
 * `matchProduct` — `REX_Product = Product_(Virtual_)?([A-Za-z0-9]+)`, used
   with `re.match`, returning group 2;
 * `convertIngredientList` — resolution of `{name, quantity}` lists against
   the name index, raising `ValueError` on an unknown name (modelled as
   `Except String`, the error value carrying the offending name);
 * the product loop, building loop and nested recipe loop as state-passing
   functions over `St`, which collects the module-level accumulators
   `ids`, `iconList`, `prodList`, `prodIndex`, `mnbList`, `recipeIds`,
   `recipeList`;
 * `convert` — the whole run: products file first, then the game-version
   check (`sys.exit(1)` on mismatch is modelled as `Except.error`), then the
   machines-and-buildings loop, then output assembly.

Python `dict`s are modelled as insertion-ordered association lists with
overwriting update (`dictGet` / `dictSet`). JSON numbers that the script
only compares with 0 or copies through are modelled as `Int`.
File I/O, the sprite-sheet image composition and the exact icon-position
strings of `getIcons` are outside the modelled core.
-/

/-- `[A-Z]` as a character test (ASCII range of the regexes involved). -/
def isUpperA (c : Char) : Bool := 65 ≤ c.toNat && c.toNat ≤ 90

/-- `[a-z]`. -/
def isLowerA (c : Char) : Bool := 97 ≤ c.toNat && c.toNat ≤ 122

/-- `\d` (ASCII digits, as matched by the patterns on identifier text). -/
def isDigitA (c : Char) : Bool := 48 ≤ c.toNat && c.toNat ≤ 57

/-- `[A-Za-z0-9]`. -/
def isAlnumA (c : Char) : Bool := isUpperA c || isLowerA c || isDigitA c

/-- `[a-z0-9]`. -/
def isLowerDigitA (c : Char) : Bool := isLowerA c || isDigitA c

/-- ASCII lowercasing of one character, the action of Python `str.lower` on
the ASCII letters the identifier pipeline produces. -/
def asciiLower (c : Char) : Char :=
  if 65 ≤ c.toNat && c.toNat ≤ 90 then Char.ofNat (c.toNat + 32) else c

/-- `str.lower` on a whole string (ASCII part). -/
def lowerStr (s : String) : String := ⟨s.data.map asciiLower⟩

/-- One attempt of `REX_CoDNaming = [A-Z][a-z]+|[A-Z]{2,}|\d[A-Z]?` at the
start of the character list, Python alternation order: returns the matched
token and the remaining characters, or `none` when no alternative matches
here. -/
def matchToken : List Char → Option (List Char × List Char)
  | [] => none
  | c :: cs =>
    if isUpperA c then
      let lows := cs.takeWhile isLowerA
      if lows.isEmpty then
        let ups := (c :: cs).takeWhile isUpperA
        if 2 ≤ ups.length then some (ups, (c :: cs).drop ups.length)
        else none
      else some (c :: lows, cs.drop lows.length)
    else if isDigitA c then
      match cs with
      | [] => some ([c], [])
      | d :: ds => if isUpperA d then some ([c, d], ds) else some ([c], cs)
    else none

/-- Scanning loop of `re.findall`: try a match at each position, emit the
token and continue after it, else skip one character. The fuel argument is
only there to make the recursion structural; `findTokens` passes the length
of the list, which suffices because every step consumes at least one
character. -/
def findTokensGo : Nat → List Char → List (List Char)
  | 0, _ => []
  | _, [] => []
  | fuel + 1, c :: cs =>
    match matchToken (c :: cs) with
    | some (tok, rest) => tok :: findTokensGo fuel rest
    | none => findTokensGo fuel cs

/-- `REX_CoDNaming.findall` on a character list. -/
def findTokens (l : List Char) : List (List Char) := findTokensGo l.length l

/-- `'-'.join` on token lists. -/
def joinHyphen : List (List Char) → List Char
  | [] => []
  | [t] => t
  | t :: u :: ts => t ++ '-' :: joinHyphen (u :: ts)

/-- `convertCod2FL`: `'-'.join(REX_CoDNaming.findall(codName)).lower()`.
Converts names from the CoD dump to Factoriolab-style naming, e.g.
`MaintenanceT2` to `maintenance-2` and `CopperImpure` to `copper-impure`. -/
def convertCod2FL (codName : String) : String :=
  ⟨(joinHyphen (findTokens codName.data)).map asciiLower⟩

/-- Lookup in an insertion-ordered association list (`dict.get`). -/
def dictGet {α : Type} (d : List (String × α)) (k : String) : Option α :=
  match d with
  | [] => none
  | p :: rest => if p.1 == k then some p.2 else dictGet rest k

/-- `d[k] = v` on an insertion-ordered association list: overwrite in place
when the key exists, append otherwise. -/
def dictSet {α : Type} (d : List (String × α)) (k : String) (v : α) :
    List (String × α) :=
  match d with
  | [] => [(k, v)]
  | p :: rest => if p.1 == k then (k, v) :: rest else p :: dictSet rest k v

/-- Backtracking search for the group of `([A-Z][a-z0-9]+)ProductProto`:
`c` is the leading uppercase character, `cs` the rest of the string; try
group-tail lengths from `n` down to `1`, accepting the first at which the
literal `ProductProto` follows. -/
def prodTypeTry (c : Char) (cs : List Char) : Nat → Option String
  | 0 => none
  | k + 1 =>
    if ("ProductProto".data).isPrefixOf (cs.drop (k + 1)) then
      some ⟨c :: cs.take (k + 1)⟩
    else prodTypeTry c cs k

/-- `REX_ProdType.match(typeStr)` returning `group(1)`:
pattern `([A-Z][a-z0-9]+)ProductProto`, anchored at the start only. -/
def matchProdType (s : String) : Option String :=
  match s.data with
  | [] => none
  | c :: cs =>
    if isUpperA c then prodTypeTry c cs (cs.takeWhile isLowerDigitA).length
    else none

/-- Drop a literal from the front of a character list, or fail. -/
def dropLit (lit : String) (l : List Char) : Option (List Char) :=
  if lit.data.isPrefixOf l then some (l.drop lit.data.length) else none

/-- `REX_Product.match(idStr)` returning `group(2)`:
pattern `Product_(Virtual_)?([A-Za-z0-9]+)`, anchored at the start only.
The optional `Virtual_` group is greedy but backtracks when taking it
leaves no alphanumeric character for group 2. -/
def matchProduct (s : String) : Option String :=
  match dropLit "Product_" s.data with
  | none => none
  | some rest =>
    match dropLit "Virtual_" rest with
    | some rest2 =>
      let run := rest2.takeWhile isAlnumA
      if run.isEmpty then
        let run2 := rest.takeWhile isAlnumA
        if run2.isEmpty then none else some ⟨run2⟩
      else some ⟨run⟩
    | none =>
      let run := rest.takeWhile isAlnumA
      if run.isEmpty then none else some ⟨run⟩

/-- Keys of `PRODUCT_TYPES`. -/
def productTypeKeys : List String :=
  ["Countable", "Fluid", "Loose", "Molten", "Virtual"]

/-- Raw product entry of `data/products.json`. -/
structure RawProduct where
  type : String
  id : String
  name : String
  icon_path : String
deriving DecidableEq, Repr

/-- One `{name, quantity}` pair of a recipe input or output list. -/
structure RawIngredient where
  name : String
  quantity : Int
deriving DecidableEq, Repr

/-- Raw nested recipe entry of `data/machines_and_buildings.json`. -/
structure RawRecipe where
  id : String
  name : String
  duration : Int
  inputs : List RawIngredient
  outputs : List RawIngredient
deriving DecidableEq, Repr

/-- Raw machine/building entry of `data/machines_and_buildings.json`. -/
structure RawBuilding where
  id : String
  name : String
  workers : Int
  electricity_consumed : Int
  maintenance_cost_units : String
  maintenance_cost_quantity : Int
  icon_path : String
  recipes : List RawRecipe
deriving DecidableEq, Repr

/-- The products document. -/
structure ProductsDoc where
  game_version : String
  products : List RawProduct
deriving DecidableEq, Repr

/-- The machines-and-buildings document. -/
structure MnbDoc where
  game_version : String
  machines_and_buildings : List RawBuilding
deriving DecidableEq, Repr

/-- An accepted product record `{id, name, type}` of `prodList`. -/
structure Product where
  id : String
  name : String
  type : String
deriving DecidableEq, Repr

/-- An `iconList` entry `{id, icon}`. -/
structure IconEntry where
  id : String
  icon : String
deriving DecidableEq, Repr

/-- The `machine` sub-record `{speed, consumption}` of a building. -/
structure Machine where
  speed : Int
  consumption : List (String × Int)
deriving DecidableEq, Repr

/-- An `mnbList` entry `{id, name, category, machine}`. -/
structure Building where
  id : String
  name : String
  category : String
  machine : Machine
deriving DecidableEq, Repr

/-- A `recipeList` entry. The Python key `in` is a Lean keyword, rendered
here as `inp`. -/
structure Recipe where
  id : String
  name : String
  time : Int
  producers : List String
  row : Int
  icon : String
  inp : List (String × Int)
  out : List (String × Int)
deriving DecidableEq, Repr

/-- An output `items` entry as far as the modelled fields go
(`row`/`machine` presentation fields are constants of the projection). -/
structure Item where
  id : String
  name : String
  category : String
deriving DecidableEq, Repr

/-- The module-level accumulators of the script. -/
structure St where
  ids : List String
  iconList : List IconEntry
  prodList : List Product
  prodIndex : List (String × String)
  mnbList : List Building
  recipeIds : List (String × Nat)
  recipeList : List Recipe
deriving DecidableEq, Repr

/-- `DEFAULT_PRODUCTS = {'worker': 'Workers'}` seeded before any file is
read: `prodList` gets the virtual product, `prodIndex` maps the display
name to the id. `ids` starts empty — and, notably, the script never adds
to it anywhere. -/
def initState : St :=
  { ids := []
    iconList := []
    prodList := [⟨"worker", "Workers", "virtual"⟩]
    prodIndex := [("Workers", "worker")]
    mnbList := []
    recipeIds := []
    recipeList := [] }

/-- Recursion of `convertIngredientList`: Python builds `ret` with
`ret[prodID] = quantity` and raises `ValueError(name)` at the first name
absent from `prodIndex`; the partly built `ret` is discarded by the raise. -/
def convIngAux (prodIndex : List (String × String))
    (ret : List (String × Int)) :
    List RawIngredient → Except String (List (String × Int))
  | [] => .ok ret
  | ing :: rest =>
    match dictGet prodIndex ing.name with
    | none => .error ing.name
    | some prodID => convIngAux prodIndex (dictSet ret prodID ing.quantity) rest

/-- `convertIngredientList`: converts an ingredient list from CoD format to
a Factoriolab-style `{product id: quantity}` dict, resolving each `name`
through `prodIndex`; unknown names raise (here: return `Except.error` with
the offending name). -/
def convertIngredientList (prodIndex : List (String × String))
    (ingredients : List RawIngredient) : Except String (List (String × Int)) :=
  convIngAux prodIndex [] ingredients

/-- The recipe-id disambiguation step, lines 189–197 of the script:
read the per-normalized-id counter from `recipeIds` (default 0); a positive
counter means the id was seen, so bump the counter and suffix the id with
`'-' + chr(95 + counter)`; otherwise record the counter as 1 and keep the
id bare. Returns the id to emit and the updated `recipeIds`. -/
def recipeIdStep (recipeIds : List (String × Nat)) (rID : String) :
    String × List (String × Nat) :=
  let rCnt := (dictGet recipeIds rID).getD 0
  if 0 < rCnt then
    (rID ++ "-" ++ String.singleton (Char.ofNat (95 + (rCnt + 1))),
     dictSet recipeIds rID (rCnt + 1))
  else (rID, dictSet recipeIds rID 1)

/-- Body of the nested recipe loop for one recipe of a building whose
normalized id is `flabID`: assign the disambiguated recipe id, resolve
inputs then outputs (a `ValueError` from either is caught and skips just
this recipe), and retain the recipe only when the resolved output dict is
non-empty. -/
def processRecipe (flabID : String) (st : St) (recipe : RawRecipe) : St :=
  let p := recipeIdStep st.recipeIds (convertCod2FL recipe.id)
  let st1 := { st with recipeIds := p.2 }
  match convertIngredientList st1.prodIndex recipe.inputs with
  | .error _ => st1
  | .ok rIn =>
    match convertIngredientList st1.prodIndex recipe.outputs with
    | .error _ => st1
    | .ok rOut =>
      if rOut.isEmpty then st1
      else
        { st1 with recipeList := st1.recipeList ++
            [⟨p.1, recipe.name, recipe.duration, [flabID], 0, flabID, rIn, rOut⟩] }

/-- The consumption dict before maintenance: a `worker` entry when
`workers > 0`, then an `electricity` entry when `electricity_consumed > 0`. -/
def buildCons (item : RawBuilding) : List (String × Int) :=
  let c0 : List (String × Int) :=
    if 0 < item.workers then dictSet [] "worker" item.workers else []
  if 0 < item.electricity_consumed then
    dictSet c0 "electricity" item.electricity_consumed
  else c0

/-- Body of the building loop for one machine/building entry: normalize the
id and skip the whole entry when it is in `ids` (a check that can never
fire, `ids` being forever empty); build the consumption dict, resolving a
non-empty maintenance unit through `prodIndex` and skipping the whole
building when that fails; append the building record and its icon; then
run the nested recipe loop. -/
def processBuilding (st : St) (item : RawBuilding) : St :=
  let flabID := convertCod2FL item.id
  if flabID ∈ st.ids then st
  else
    let consR : Option (List (String × Int)) :=
      if item.maintenance_cost_units ≠ "" then
        match dictGet st.prodIndex item.maintenance_cost_units with
        | none => none
        | some unit =>
          some (dictSet (buildCons item) unit item.maintenance_cost_quantity)
      else some (buildCons item)
    match consR with
    | none => st
    | some cons =>
      let st1 :=
        { st with
            mnbList := st.mnbList ++ [⟨flabID, item.name, "buildings", ⟨1, cons⟩⟩]
            iconList := st.iconList ++ [⟨flabID, item.icon_path⟩] }
      item.recipes.foldl (processRecipe flabID) st1

/-- Body of the product loop for one raw product entry: extract and check
the product type, unwrap and normalize the id (skipping on `ids`
membership, a check that can never fire), append the product record, and —
only when the display name is new — register the name in `prodIndex` and
the icon in `iconList`. A duplicate display name skips those two steps but
the record already sits in `prodList`. -/
def processProduct (st : St) (item : RawProduct) : St :=
  match matchProdType item.type with
  | none => st
  | some typeStr =>
    if typeStr ∈ productTypeKeys then
      match matchProduct item.id with
      | none => st
      | some bare =>
        let flabID := convertCod2FL bare
        if flabID ∈ st.ids then st
        else
          let st1 :=
            { st with prodList := st.prodList ++ [⟨flabID, item.name, lowerStr typeStr⟩] }
          if (dictGet st1.prodIndex item.name).isSome then st1
          else
            { st1 with
                prodIndex := dictSet st1.prodIndex item.name flabID
                iconList := st1.iconList ++ [⟨flabID, item.icon_path⟩] }
    else st

/-- The product loop over the whole products document, from the seeded
default state. -/
def runProducts (ps : List RawProduct) : St := ps.foldl processProduct initState

/-- `getItems`: `prodList` projected to `{id, name, category}` followed by
the building records. -/
def getItems (st : St) : List Item :=
  st.prodList.map (fun x => ⟨x.id, x.name, x.type⟩) ++
    st.mnbList.map (fun b => ⟨b.id, b.name, b.category⟩)

/-- The modelled output document: game version, items, icon registrations
(the sprite-sheet layout of `getIcons` is presentation, outside the core),
and the recipe list. -/
structure Output where
  version : String
  items : List Item
  icons : List IconEntry
  recipes : List Recipe
deriving DecidableEq, Repr

/-- The whole run: the product loop over the products document, then the
game-version comparison against the machines-and-buildings document —
`sys.exit(1)` before anything is written, modelled as `Except.error` —
then the building loop and the output assembly. -/
def convert (pd : ProductsDoc) (md : MnbDoc) : Except String Output :=
  let st := runProducts pd.products
  if md.game_version ≠ pd.game_version then .error "Game version differs"
  else
    let st2 := md.machines_and_buildings.foldl processBuilding st
    .ok { version := pd.game_version
          items := getItems st2
          icons := st2.iconList
          recipes := st2.recipeList }

/-- Characters allowed in a normalized identifier: `[a-z0-9-]`
(stated through code points: 97–122 is `a`–`z`, 48–57 is `0`–`9`). -/
def isOutChar (c : Char) : Bool :=
  c == '-' || (97 ≤ c.toNat && c.toNat ≤ 122) || (48 ≤ c.toNat && c.toNat ≤ 57)

/-- Whether one recipe survives ingredient resolution: both lists resolve
against the index and the resolved output dict is non-empty. -/
def recipeResolves (idx : List (String × String)) (rec : RawRecipe) : Bool :=
  match convertIngredientList idx rec.inputs with
  | .error _ => false
  | .ok _ =>
    match convertIngredientList idx rec.outputs with
    | .error _ => false
    | .ok o => !o.isEmpty

/-- `k` consecutive occurrences of one normalized recipe id `r` fed through
the disambiguation step, starting from an empty `recipeIds`: returns the
final counter dict and the ids assigned in order. -/
def iterIds (r : String) : Nat → List (String × Nat) × List String
  | 0 => ([], [])
  | k + 1 =>
    let p := iterIds r k
    let q := recipeIdStep p.1 r
    (q.2, p.2 ++ [q.1])

/-- C1 demo products document: one countable product `Product_Iron`
named `Iron`. -/
def c1Products : ProductsDoc :=
  ⟨"0.5.2", [⟨"CountableProductProto", "Product_Iron", "Iron", "iron.png"⟩]⟩

/-- C1 demo buildings document: one building `SmelterT1` (0 workers,
0 electricity, empty maintenance unit) with one recipe `SmeltIron`,
no inputs, one output `{Iron: 1}`. -/
def c1Mnb : MnbDoc :=
  ⟨"0.5.2", [⟨"SmelterT1", "Smelter I", 0, 0, "", 0, "smelter.png",
    [⟨"SmeltIron", "Smelt iron", 10, [], [⟨"Iron", 1⟩]⟩]⟩]⟩

/-- C2 demo products document: two countable products whose wrapped ids
both normalize to `iron`, with distinct display names. -/
def c2Products : ProductsDoc :=
  ⟨"1", [⟨"CountableProductProto", "Product_Iron", "Iron", "i.png"⟩,
         ⟨"CountableProductProto", "Product_Iron", "Iron Two", "i2.png"⟩]⟩

/-- C2 demo buildings document: empty, same version. -/
def c2Mnb : MnbDoc := ⟨"1", []⟩

/-- C4 demo products document: one countable product. -/
def c4Products : ProductsDoc :=
  ⟨"1", [⟨"CountableProductProto", "Product_Iron", "Iron", "i.png"⟩]⟩

/-- C4 demo buildings document: three recipes all normalizing to
`transform`, spread over two distinct buildings. -/
def c4Mnb : MnbDoc :=
  ⟨"1", [⟨"BldOne", "One", 0, 0, "", 0, "b1.png",
          [⟨"Transform", "R1", 1, [], [⟨"Iron", 1⟩]⟩,
           ⟨"Transform", "R2", 1, [], [⟨"Iron", 1⟩]⟩]⟩,
         ⟨"BldTwo", "Two", 0, 0, "", 0, "b2.png",
          [⟨"Transform", "R3", 1, [], [⟨"Iron", 1⟩]⟩]⟩]⟩

/-- C9 demo products document: second product has a fresh id but a
duplicate display name. -/
def c9Products : ProductsDoc :=
  ⟨"1", [⟨"CountableProductProto", "Product_Iron", "Iron", "i.png"⟩,
         ⟨"CountableProductProto", "Product_Copper", "Iron", "c.png"⟩]⟩

/-- C9 demo buildings document: empty, same version. -/
def c9Mnb : MnbDoc := ⟨"1", []⟩

/-- C10 demo products document: one countable product. -/
def c10Products : ProductsDoc :=
  ⟨"1", [⟨"CountableProductProto", "Product_Iron", "Iron", "i.png"⟩]⟩

/-- C10 demo buildings document: one building with two recipes normalizing
to `foo-bar`; the first has an unresolvable output and is dropped, the
second resolves. -/
def c10Mnb : MnbDoc :=
  ⟨"1", [⟨"BldAlpha", "Alpha", 0, 0, "", 0, "a.png",
          [⟨"FooBar", "R1", 1, [], [⟨"Unknown", 1⟩]⟩,
           ⟨"FooBar", "R2", 1, [], [⟨"Iron", 1⟩]⟩]⟩]⟩

/-- Helper: `Char.ofNat` round-trips with `Char.toNat` on code points below
the surrogate range. -/
theorem charOfNat_toNat {n : Nat} (h : n < 55296) : (Char.ofNat n).toNat = n := by
  have hv : Nat.isValidChar n := Or.inl h
  simp [Char.ofNat, hv, Char.ofNatAux, Char.toNat, UInt32.toNat, BitVec.toNat_ofNatLt]

/-- Helper: ASCII-lowercasing an alphanumeric character lands in
`[a-z0-9]`, hence in the output character set. -/
theorem asciiLower_alnum {c : Char} (h : isAlnumA c = true) :
    isOutChar (asciiLower c) = true := by
  simp only [isAlnumA, isUpperA, isLowerA, isDigitA, Bool.or_eq_true,
    Bool.and_eq_true, decide_eq_true_eq] at h
  simp only [isOutChar, asciiLower, Bool.or_eq_true, Bool.and_eq_true,
    decide_eq_true_eq]
  rcases h with (h | h) | h
  · rw [if_pos h]
    have hn := charOfNat_toNat (n := c.toNat + 32) (by omega)
    refine Or.inl (Or.inr ⟨?_, ?_⟩) <;> rw [hn] <;> omega
  · have hb : ¬ (65 ≤ c.toNat ∧ c.toNat ≤ 90) := by omega
    rw [if_neg hb]
    exact Or.inl (Or.inr ⟨by omega, by omega⟩)
  · have hb : ¬ (65 ≤ c.toNat ∧ c.toNat ≤ 90) := by omega
    rw [if_neg hb]
    exact Or.inr ⟨by omega, by omega⟩

/-- Helper: every character of a token produced by one `REX_CoDNaming`
match attempt is alphanumeric. -/
theorem matchToken_chars : ∀ {l tok rest : List Char},
    matchToken l = some (tok, rest) → ∀ c ∈ tok, isAlnumA c = true := by
  intro l tok rest h x hx
  cases l with
  | nil => simp [matchToken] at h
  | cons c cs =>
    simp only [matchToken] at h
    by_cases hu : isUpperA c
    · rw [if_pos hu] at h
      by_cases he : (cs.takeWhile isLowerA).isEmpty
      · rw [if_pos he] at h
        by_cases h2 : 2 ≤ ((c :: cs).takeWhile isUpperA).length
        · rw [if_pos h2] at h
          injection h with h'
          rw [Prod.mk.injEq] at h'
          obtain ⟨h3, -⟩ := h'
          subst h3
          have := List.mem_takeWhile_imp hx
          simp [isAlnumA, this]
        · rw [if_neg h2] at h; exact absurd h (by simp)
      · rw [if_neg he] at h
        injection h with h'
        rw [Prod.mk.injEq] at h'
        obtain ⟨h3, -⟩ := h'
        subst h3
        rcases List.mem_cons.1 hx with rfl | hx2
        · simp [isAlnumA, hu]
        · have := List.mem_takeWhile_imp hx2
          simp [isAlnumA, this]
    · rw [if_neg hu] at h
      by_cases hd : isDigitA c
      · rw [if_pos hd] at h
        cases cs with
        | nil =>
          injection h with h'
          rw [Prod.mk.injEq] at h'
          obtain ⟨h3, -⟩ := h'
          subst h3
          simp only [List.mem_singleton] at hx
          simp [hx, isAlnumA, hd]
        | cons d ds =>
          dsimp only at h
          by_cases hud : isUpperA d
          · rw [if_pos hud] at h
            injection h with h'
            rw [Prod.mk.injEq] at h'
            obtain ⟨h3, -⟩ := h'
            subst h3
            rcases List.mem_cons.1 hx with rfl | hx2
            · simp [isAlnumA, hd]
            · simp only [List.mem_singleton] at hx2
              simp [hx2, isAlnumA, hud]
          · rw [if_neg hud] at h
            injection h with h'
            rw [Prod.mk.injEq] at h'
            obtain ⟨h3, -⟩ := h'
            subst h3
            simp only [List.mem_singleton] at hx
            simp [hx, isAlnumA, hd]
      · rw [if_neg hd] at h; exact absurd h (by simp)

/-- Helper: every character of every token found by the scanning loop is
alphanumeric. -/
theorem findTokensGo_chars : ∀ (fuel : Nat) (l : List Char),
    ∀ tok ∈ findTokensGo fuel l, ∀ c ∈ tok, isAlnumA c = true := by
  intro fuel
  induction fuel with
  | zero => intro l tok htok; simp [findTokensGo] at htok
  | succ n ih =>
    intro l tok htok
    cases l with
    | nil => simp [findTokensGo] at htok
    | cons c cs =>
      rw [findTokensGo] at htok
      revert htok
      match hm : matchToken (c :: cs) with
      | some (t, rest) =>
        intro htok
        rcases List.mem_cons.1 htok with rfl | htok2
        · exact matchToken_chars hm
        · exact ih rest tok htok2
      | none =>
        intro htok
        exact ih cs tok htok

/-- Helper: a character of a hyphen-join of alphanumeric tokens is
alphanumeric or the hyphen. -/
theorem joinHyphen_chars : ∀ (ts : List (List Char)),
    (∀ t ∈ ts, ∀ c ∈ t, isAlnumA c = true) →
    ∀ c ∈ joinHyphen ts, isAlnumA c = true ∨ c = '-' := by
  intro ts
  induction ts with
  | nil => intro _ c hc; simp [joinHyphen] at hc
  | cons t rest ih =>
    intro hall c hc
    cases rest with
    | nil =>
      rw [joinHyphen] at hc
      exact Or.inl (hall t (List.mem_cons_self t []) c hc)
    | cons u us =>
      rw [joinHyphen] at hc
      rcases List.mem_append.1 hc with hc1 | hc2
      · exact Or.inl (hall t (List.mem_cons_self t (u :: us)) c hc1)
      · rcases List.mem_cons.1 hc2 with rfl | hc3
        · exact Or.inr rfl
        · exact ih (fun t' ht' => hall t' (List.mem_cons_of_mem t ht')) c hc3

/-- C8: for every input string, `convertCod2FL` is total and returns the
matched tokens lowercased and joined with hyphens, so every character of
the result lies in `[a-z0-9-]`; and a string containing zero matching
tokens yields the empty string rather than failing. -/
theorem convertCod2FL_charset (s : String) :
    ((convertCod2FL s).data.all isOutChar = true)
    ∧ (findTokens s.data = [] → convertCod2FL s = "") := by
  constructor
  · rw [List.all_eq_true]
    intro c hc
    have hdata : (convertCod2FL s).data
        = (joinHyphen (findTokens s.data)).map asciiLower := rfl
    rw [hdata] at hc
    obtain ⟨c0, hc0, rfl⟩ := List.mem_map.1 hc
    have := joinHyphen_chars (findTokens s.data)
      (findTokensGo_chars s.data.length s.data) c0 hc0
    rcases this with h1 | rfl
    · exact asciiLower_alnum h1
    · rfl
  · intro h
    show (⟨(joinHyphen (findTokens s.data)).map asciiLower⟩ : String) = ""
    rw [h]
    rfl

/-- Witness for C8: the tokenless string produces the empty string. -/
theorem convertCod2FL_charset_witness : convertCod2FL "_x_" = "" :=
  (convertCod2FL_charset "_x_").2 (by rfl)

/-- Helper: looking up the key just set returns the value just set. -/
theorem dictGet_dictSet_self {α : Type} (d : List (String × α)) (k : String) (v : α) :
    dictGet (dictSet d k v) k = some v := by
  induction d with
  | nil => simp [dictGet, dictSet]
  | cons p rest ih =>
    rw [dictSet]
    by_cases h : p.1 = k
    · simp [dictGet, h]
    · have hb : (p.1 == k) = false := by simpa using h
      rw [if_neg (by simp [h]), dictGet]
      rw [hb]
      simpa using ih

/-- Helper: setting one key leaves lookups of other keys unchanged. -/
theorem dictGet_dictSet_ne {α : Type} (d : List (String × α)) (k k' : String) (v : α)
    (h : k' ≠ k) : dictGet (dictSet d k v) k' = dictGet d k' := by
  have hkk : (k == k') = false := by
    simp only [beq_eq_false_iff_ne, ne_eq]
    exact fun hh => h hh.symm
  induction d with
  | nil => simp [dictGet, dictSet, hkk]
  | cons p rest ih =>
    rw [dictSet]
    by_cases hp : p.1 = k
    · rw [if_pos (by simpa using hp), dictGet, dictGet]
      have h2 : (p.1 == k') = false := by rw [hp]; exact hkk
      rw [hkk, h2]
      simp
    · rw [if_neg (by simpa using hp), dictGet, dictGet]
      by_cases hq : p.1 = k'
      · simp [hq]
      · have h2 : (p.1 == k') = false := by simpa using hq
        rw [h2]
        simp only [Bool.false_eq_true, if_false]
        exact ih

/-- Helper: setting a key preserves definedness of every lookup. -/
theorem dictGet_isSome_dictSet {α : Type} (d : List (String × α)) (k k' : String) (v : α)
    (h : (dictGet d k').isSome) : (dictGet (dictSet d k v) k').isSome := by
  by_cases he : k' = k
  · subst he; rw [dictGet_dictSet_self]; rfl
  · rw [dictGet_dictSet_ne d k k' v he]; exact h

/-- Helper: an entry of `dictSet d k v` is the new binding or an entry of
`d`. -/
theorem mem_dictSet {α : Type} (d : List (String × α)) (k : String) (v : α) :
    ∀ p ∈ dictSet d k v, (p.1 = k ∧ p.2 = v) ∨ p ∈ d := by
  induction d with
  | nil =>
    intro p hp
    rw [dictSet] at hp
    obtain rfl := List.mem_singleton.1 hp
    exact Or.inl ⟨rfl, rfl⟩
  | cons q rest ih =>
    intro p hp
    rw [dictSet] at hp
    by_cases hq : q.1 = k
    · rw [if_pos (by simpa using hq)] at hp
      rcases List.mem_cons.1 hp with rfl | hp2
      · exact Or.inl ⟨rfl, rfl⟩
      · exact Or.inr (List.mem_cons_of_mem q hp2)
    · rw [if_neg (by simpa using hq)] at hp
      rcases List.mem_cons.1 hp with rfl | hp2
      · exact Or.inr (List.mem_cons_self p rest)
      · rcases ih p hp2 with h1 | h2
        · exact Or.inl h1
        · exact Or.inr (List.mem_cons_of_mem q h2)

/-- Helper: invariant of the ingredient-resolution recursion, generalized
over the accumulator: an unresolvable name anywhere in the list yields the
error carrying such a name, and full resolvability yields a dict holding
every resolved id, each entry traceable to the accumulator or to an
ingredient of the list. -/
theorem convIngAux_spec (idx : List (String × String)) :
    ∀ (ings : List RawIngredient) (ret : List (String × Int)),
    ((∃ i ∈ ings, dictGet idx i.name = none) →
      ∃ nm, convIngAux idx ret ings = .error nm ∧ dictGet idx nm = none
        ∧ ∃ i ∈ ings, i.name = nm)
    ∧ ((∀ i ∈ ings, (dictGet idx i.name).isSome) →
      ∃ m, convIngAux idx ret ings = .ok m
        ∧ (∀ pid, (dictGet ret pid).isSome → (dictGet m pid).isSome)
        ∧ (∀ i ∈ ings, ∀ pid, dictGet idx i.name = some pid → (dictGet m pid).isSome)
        ∧ (∀ p ∈ m, p ∈ ret
            ∨ ∃ i ∈ ings, dictGet idx i.name = some p.1 ∧ p.2 = i.quantity)) := by
  intro ings
  induction ings with
  | nil =>
    intro ret
    constructor
    · rintro ⟨i, hi, -⟩
      simp at hi
    · intro _
      exact ⟨ret, rfl, fun _ h => h, by simp, fun p hp => Or.inl hp⟩
  | cons i rest ih =>
    intro ret
    constructor
    · rintro ⟨j, hj, hjn⟩
      cases hnm : dictGet idx i.name with
      | none =>
        refine ⟨i.name, ?_, hnm, i, List.mem_cons_self i rest, rfl⟩
        simp [convIngAux, hnm]
      | some pid =>
        rcases List.mem_cons.1 hj with rfl | hj2
        · rw [hnm] at hjn; exact absurd hjn (by simp)
        · obtain ⟨nm, heq, hnone, j', hj', hj'n⟩ :=
            (ih (dictSet ret pid i.quantity)).1 ⟨j, hj2, hjn⟩
          refine ⟨nm, ?_, hnone, j', List.mem_cons_of_mem i hj', hj'n⟩
          rw [convIngAux, hnm]
          exact heq
    · intro hall
      have hi := hall i (List.mem_cons_self i rest)
      obtain ⟨pid, hpid⟩ := Option.isSome_iff_exists.1 hi
      obtain ⟨m, hm, hkeys, hnames, hfrom⟩ :=
        (ih (dictSet ret pid i.quantity)).2
          (fun j hj => hall j (List.mem_cons_of_mem i hj))
      refine ⟨m, ?_, ?_, ?_, ?_⟩
      · rw [convIngAux, hpid]; exact hm
      · intro pid' h'
        exact hkeys pid' (dictGet_isSome_dictSet ret pid pid' i.quantity h')
      · intro j hj pid' hj'
        rcases List.mem_cons.1 hj with rfl | hj2
        · rw [hpid] at hj'
          obtain rfl : pid = pid' := by simpa using hj'
          apply hkeys
          rw [dictGet_dictSet_self]
          rfl
        · exact hnames j hj2 pid' hj'
      · intro p hp
        rcases hfrom p hp with hp1 | ⟨j, hj, hjn, hjq⟩
        · rcases mem_dictSet ret pid i.quantity p hp1 with ⟨h1, h2⟩ | h3
          · exact Or.inr ⟨i, List.mem_cons_self i rest, by rw [hpid, h1], h2⟩
          · exact Or.inl h3
        · exact Or.inr ⟨j, List.mem_cons_of_mem i hj, hjn, hjq⟩

/-- C3: ingredient resolution is all-or-nothing per list. If at least one
entry name is absent from the index, `convertIngredientList` returns the
unknown-ingredient error carrying an offending (absent) name and yields no
partial mapping — no `.ok` dict of partially resolved entries exists. If
every name resolves, it returns the full mapping: every ingredient's
resolved product id is a key, and every entry of the mapping is the
resolved id and quantity of some ingredient of the list. -/
theorem convertIngredientList_all_or_nothing (idx : List (String × String))
    (ings : List RawIngredient) :
    ((∃ i ∈ ings, dictGet idx i.name = none) →
      ∃ nm, convertIngredientList idx ings = .error nm ∧ dictGet idx nm = none
        ∧ ∃ i ∈ ings, i.name = nm)
    ∧ ((∀ i ∈ ings, (dictGet idx i.name).isSome) →
      ∃ m, convertIngredientList idx ings = .ok m
        ∧ (∀ i ∈ ings, ∀ pid, dictGet idx i.name = some pid → (dictGet m pid).isSome)
        ∧ (∀ p ∈ m, ∃ i ∈ ings, dictGet idx i.name = some p.1 ∧ p.2 = i.quantity)) := by
  constructor
  · exact (convIngAux_spec idx ings []).1
  · intro hall
    obtain ⟨m, hm, -, hnames, hfrom⟩ := (convIngAux_spec idx ings []).2 hall
    refine ⟨m, hm, hnames, ?_⟩
    intro p hp
    rcases hfrom p hp with h1 | h2
    · simp at h1
    · exact h2

/-- Helper: after `k` occurrences of one normalized recipe id, the
occurrence counter stored for it reads back as `k`. -/
theorem iterIds_counter (r : String) :
    ∀ k, (dictGet (iterIds r k).1 r).getD 0 = k := by
  intro k
  induction k with
  | zero => rfl
  | succ n ih =>
    have hstep : (iterIds r (n + 1)).1 = (recipeIdStep (iterIds r n).1 r).2 := rfl
    rw [hstep]
    simp only [recipeIdStep]
    rw [ih]
    cases n with
    | zero => simp [dictGet_dictSet_self]
    | succ m => simp [dictGet_dictSet_self]

/-- C4: recipe-id disambiguation uses one global occurrence counter per
normalized id. The first occurrence of `r` keeps the bare id; the `n`-th
occurrence (`n ≥ 2`) is assigned `r ++ "-" ++ chr(95 + n)` — so the 2nd
gets `r-a`, the 3rd `r-b`, with strictly increasing suffixes. The third
conjunct runs the whole pipeline on three recipes normalizing to
`transform` spread over two buildings, showing the counter is shared
across buildings: `transform`, `transform-a`, `transform-b` in encounter
order. -/
theorem recipe_id_disambiguation (r : String) (n : Nat) (hn : 2 ≤ n) :
    (iterIds r 1).2 = [r]
    ∧ (iterIds r n).2 = (iterIds r (n - 1)).2
        ++ [r ++ "-" ++ String.singleton (Char.ofNat (95 + n))]
    ∧ (convert c4Products c4Mnb).map (fun o => o.recipes.map Recipe.id)
        = Except.ok ["transform", "transform-a", "transform-b"] := by
  refine ⟨rfl, ?_, rfl⟩
  obtain ⟨m, rfl⟩ : ∃ m, n = m + 1 := ⟨n - 1, by omega⟩
  have hc := iterIds_counter r m
  have hstep : (iterIds r (m + 1)).2
      = (iterIds r m).2 ++ [(recipeIdStep (iterIds r m).1 r).1] := rfl
  rw [hstep]
  simp only [recipeIdStep]
  rw [hc]
  have hm : 0 < m := by omega
  rw [if_pos hm]
  simp

/-- Witness for C4 at the second occurrence of the id `x`. -/
theorem recipe_id_disambiguation_witness :
    (iterIds "x" 1).2 = ["x"]
    ∧ (iterIds "x" 2).2 = (iterIds "x" (2 - 1)).2
        ++ ["x" ++ "-" ++ String.singleton (Char.ofNat (95 + 2))]
    ∧ (convert c4Products c4Mnb).map (fun o => o.recipes.map Recipe.id)
        = Except.ok ["transform", "transform-a", "transform-b"] :=
  recipe_id_disambiguation "x" 2 (by decide)

/-- C5: whenever the game version recorded in the machines/buildings
document differs from the products document's version, the run aborts with
the version-mismatch error — `Except.error`, the model of `sys.exit(1)` —
so no output document is ever produced, for any input documents. -/
theorem version_mismatch_aborts (pd : ProductsDoc) (md : MnbDoc)
    (h : md.game_version ≠ pd.game_version) :
    convert pd md = Except.error "Game version differs" := by
  simp only [convert]
  rw [if_pos h]

/-- Witness for C5 on two concrete documents with versions 1 and 2. -/
theorem version_mismatch_aborts_witness :
    convert ⟨"1", []⟩ ⟨"2", []⟩ = Except.error "Game version differs" :=
  version_mismatch_aborts ⟨"1", []⟩ ⟨"2", []⟩ (by decide)

/-- C6: from any state, a nested recipe entry is appended to the recipe
list if and only if both its input and output lists fully resolve against
the name index and the resolved output dict is non-empty; when resolution
fails or the output is empty the recipe list is unchanged — exactly that
one recipe is dropped — and in every case the building list, product list,
product index and icon list are untouched, so sibling recipes and the
building record are unaffected and the error never propagates past the
owning recipe. -/
theorem recipe_retention (st : St) (fid : String) (rec : RawRecipe) :
    ((∃ e, (processRecipe fid st rec).recipeList = st.recipeList ++ [e]) ↔
      recipeResolves st.prodIndex rec = true)
    ∧ (recipeResolves st.prodIndex rec = false →
        (processRecipe fid st rec).recipeList = st.recipeList)
    ∧ (processRecipe fid st rec).mnbList = st.mnbList
    ∧ (processRecipe fid st rec).prodList = st.prodList
    ∧ (processRecipe fid st rec).prodIndex = st.prodIndex
    ∧ (processRecipe fid st rec).iconList = st.iconList := by
  cases hin : convertIngredientList st.prodIndex rec.inputs with
  | error e =>
    have hres : recipeResolves st.prodIndex rec = false := by
      rw [recipeResolves, hin]
    have hlist : (processRecipe fid st rec).recipeList = st.recipeList := by
      simp [processRecipe, hin]
    refine ⟨⟨?_, ?_⟩, fun _ => hlist, ?_, ?_, ?_, ?_⟩
    · rintro ⟨e', he'⟩
      rw [hlist] at he'
      have := congrArg List.length he'
      simp at this
    · intro hr
      rw [hres] at hr
      exact absurd hr (by simp)
    all_goals simp [processRecipe, hin]
  | ok rIn =>
    cases hout : convertIngredientList st.prodIndex rec.outputs with
    | error e =>
      have hres : recipeResolves st.prodIndex rec = false := by
        rw [recipeResolves, hin, hout]
      have hlist : (processRecipe fid st rec).recipeList = st.recipeList := by
        simp [processRecipe, hin, hout]
      refine ⟨⟨?_, ?_⟩, fun _ => hlist, ?_, ?_, ?_, ?_⟩
      · rintro ⟨e', he'⟩
        rw [hlist] at he'
        have := congrArg List.length he'
        simp at this
      · intro hr
        rw [hres] at hr
        exact absurd hr (by simp)
      all_goals simp [processRecipe, hin, hout]
    | ok rOut =>
      by_cases hemp : rOut.isEmpty
      · have hres : recipeResolves st.prodIndex rec = false := by
          rw [recipeResolves, hin, hout]
          simp [hemp]
        have hlist : (processRecipe fid st rec).recipeList = st.recipeList := by
          simp [processRecipe, hin, hout, hemp]
        refine ⟨⟨?_, ?_⟩, fun _ => hlist, ?_, ?_, ?_, ?_⟩
        · rintro ⟨e', he'⟩
          rw [hlist] at he'
          have := congrArg List.length he'
          simp at this
        · intro hr
          rw [hres] at hr
          exact absurd hr (by simp)
        all_goals simp [processRecipe, hin, hout, hemp]
      · have hres : recipeResolves st.prodIndex rec = true := by
          rw [recipeResolves, hin, hout]
          simp [hemp]
        have hlist : (processRecipe fid st rec).recipeList = st.recipeList ++
            [⟨(recipeIdStep st.recipeIds (convertCod2FL rec.id)).1, rec.name,
              rec.duration, [fid], 0, fid, rIn, rOut⟩] := by
          simp [processRecipe, hin, hout, hemp]
        refine ⟨⟨fun _ => hres, fun _ => ⟨_, hlist⟩⟩, ?_, ?_, ?_, ?_, ?_⟩
        · intro hr
          rw [hres] at hr
          exact absurd hr (by simp)
        all_goals simp [processRecipe, hin, hout, hemp]

/-- Witness for C6: a recipe with an unresolvable output leaves the
recipe list unchanged. -/
theorem recipe_retention_witness :
    (processRecipe "b" initState ⟨"BadRec", "Bad", 1, [], [⟨"Nope", 1⟩]⟩).recipeList
      = initState.recipeList :=
  (recipe_retention initState "b" ⟨"BadRec", "Bad", 1, [], [⟨"Nope", 1⟩]⟩).2.1 (by rfl)

/-- C7: when a raw product entry parses, its normalized id passes the id
check, and its display name is already registered in the name index, the
name index is left unchanged (first registration wins) but the product
record is still appended to the product list and still appears in the
output items list; its icon is not registered. -/
theorem duplicate_name_product_kept (st : St) (item : RawProduct) (t bare : String)
    (ht : matchProdType item.type = some t) (htk : t ∈ productTypeKeys)
    (hb : matchProduct item.id = some bare)
    (hid : convertCod2FL bare ∉ st.ids)
    (hname : (dictGet st.prodIndex item.name).isSome = true) :
    (processProduct st item).prodIndex = st.prodIndex
    ∧ (processProduct st item).prodList
        = st.prodList ++ [⟨convertCod2FL bare, item.name, lowerStr t⟩]
    ∧ (⟨convertCod2FL bare, item.name, lowerStr t⟩ : Item)
        ∈ getItems (processProduct st item)
    ∧ (processProduct st item).iconList = st.iconList := by
  have hp : processProduct st item =
      { st with prodList := st.prodList ++ [⟨convertCod2FL bare, item.name, lowerStr t⟩] } := by
    simp [processProduct, ht, hb, htk, hid, hname]
  refine ⟨by rw [hp], by rw [hp], ?_, by rw [hp]⟩
  rw [hp, getItems]
  exact List.mem_append.2 (Or.inl (List.mem_map.2
    ⟨⟨convertCod2FL bare, item.name, lowerStr t⟩, by simp, rfl⟩))

/-- Witness for C7: a product whose display name collides with the seeded
default `Workers` is kept in the product list while the index stays
unchanged. -/
theorem duplicate_name_product_kept_witness :
    (processProduct initState ⟨"CountableProductProto", "Product_Fake", "Workers", "f.png"⟩).prodIndex
        = initState.prodIndex
    ∧ (processProduct initState ⟨"CountableProductProto", "Product_Fake", "Workers", "f.png"⟩).prodList
        = initState.prodList ++ [⟨convertCod2FL "Fake", "Workers", lowerStr "Countable"⟩]
    ∧ (⟨convertCod2FL "Fake", "Workers", lowerStr "Countable"⟩ : Item)
        ∈ getItems (processProduct initState ⟨"CountableProductProto", "Product_Fake", "Workers", "f.png"⟩)
    ∧ (processProduct initState ⟨"CountableProductProto", "Product_Fake", "Workers", "f.png"⟩).iconList
        = initState.iconList :=
  duplicate_name_product_kept initState ⟨"CountableProductProto", "Product_Fake", "Workers", "f.png"⟩
    "Countable" "Fake" (by rfl) (by decide) (by rfl) (by decide) (by rfl)

/-- Helper: the recipe loop never touches the icon list. -/
theorem processRecipe_iconList (fid : String) (s : St) (rec : RawRecipe) :
    (processRecipe fid s rec).iconList = s.iconList := by
  simp only [processRecipe]
  split
  · rfl
  · split
    · rfl
    · split
      · rfl
      · rfl

/-- Helper: folding the recipe loop over a recipe list never touches the
icon list. -/
theorem foldl_processRecipe_iconList (fid : String) :
    ∀ (rs : List RawRecipe) (s : St),
    (rs.foldl (processRecipe fid) s).iconList = s.iconList := by
  intro rs
  induction rs with
  | nil => intro s; rfl
  | cons a as ih =>
    intro s
    rw [List.foldl_cons, ih, processRecipe_iconList]

/-- C9 (amended): exactly one icon entry is registered under the
normalized id for every accepted product whose display name is new and for
every accepted building; a product accepted into the product list whose
display name is a duplicate gets no icon entry (and the seeded default
products have none either). -/
theorem icon_registration (st : St) (item : RawProduct) (t bare : String) (b : RawBuilding)
    (ht : matchProdType item.type = some t) (htk : t ∈ productTypeKeys)
    (hb : matchProduct item.id = some bare)
    (hid : convertCod2FL bare ∉ st.ids)
    (hbid : convertCod2FL b.id ∉ st.ids)
    (hmaint : b.maintenance_cost_units = ""
      ∨ (dictGet st.prodIndex b.maintenance_cost_units).isSome = true) :
    ((dictGet st.prodIndex item.name).isSome = false →
      (processProduct st item).iconList
        = st.iconList ++ [⟨convertCod2FL bare, item.icon_path⟩])
    ∧ ((dictGet st.prodIndex item.name).isSome = true →
      (processProduct st item).iconList = st.iconList)
    ∧ (processBuilding st b).iconList
        = st.iconList ++ [⟨convertCod2FL b.id, b.icon_path⟩] := by
  refine ⟨?_, ?_, ?_⟩
  · intro hfresh
    simp [processProduct, ht, hb, htk, hid, hfresh]
  · intro hdup
    simp [processProduct, ht, hb, htk, hid, hdup]
  · by_cases hne : b.maintenance_cost_units = ""
    · simp only [processBuilding]
      rw [if_neg hbid, if_neg (by simp [hne])]
      rw [foldl_processRecipe_iconList]
    · have hsome : (dictGet st.prodIndex b.maintenance_cost_units).isSome = true := by
        rcases hmaint with h1 | h2
        · exact absurd h1 hne
        · exact h2
      obtain ⟨u, hu⟩ := Option.isSome_iff_exists.1 hsome
      simp only [processBuilding]
      rw [if_neg hbid, if_pos hne, hu]
      rw [foldl_processRecipe_iconList]

/-- Witness for C9 (amended): a fresh-named product and a building each
register exactly one icon entry. -/
theorem icon_registration_witness :
    ((dictGet initState.prodIndex "Iron").isSome = false →
      (processProduct initState ⟨"CountableProductProto", "Product_Iron", "Iron", "i.png"⟩).iconList
        = initState.iconList ++ [⟨convertCod2FL "Iron", "i.png"⟩])
    ∧ ((dictGet initState.prodIndex "Iron").isSome = true →
      (processProduct initState ⟨"CountableProductProto", "Product_Iron", "Iron", "i.png"⟩).iconList
        = initState.iconList)
    ∧ (processBuilding initState ⟨"BldOne", "One", 0, 0, "", 0, "b.png", []⟩).iconList
        = initState.iconList ++ [⟨convertCod2FL "BldOne", "b.png"⟩] :=
  icon_registration initState ⟨"CountableProductProto", "Product_Iron", "Iron", "i.png"⟩
    "Countable" "Iron" ⟨"BldOne", "One", 0, 0, "", 0, "b.png", []⟩
    (by rfl) (by decide) (by rfl) (by decide) (by decide) (Or.inl rfl)

/-- Counterexample for C9 as stated: `copper` is accepted into the
product list (its display name duplicates `iron`'s), appears in the output
items list, yet no icon entry is registered under `copper`. -/
theorem one_icon_per_item_counterexample :
    ∃ o, convert c9Products c9Mnb = Except.ok o
      ∧ "copper" ∈ o.items.map Item.id
      ∧ "copper" ∉ o.icons.map IconEntry.id :=
  ⟨_, rfl, by decide, by decide⟩

/-- C2 (code bug): the `ids` set is declared and checked but never added
to, so the duplicate-id skip can never fire: two products normalizing to
the same id `iron` are both emitted, and the output items list carries
`iron` twice — the ids are not pairwise distinct. -/
theorem duplicate_ids_emitted :
    (convert c2Products c2Mnb).map (fun o => o.items.map Item.id)
      = Except.ok ["worker", "iron", "iron"] := rfl

/-- Counterexample for C1 as stated: on the minimal documents the single
output recipe's producers list is `["smelter-1"]` — the pattern
`\d[A-Z]?` never matches at `T` in `SmelterT1`, so the `T` is dropped, as
in the script's own docstring example `MaintenanceT2` → `maintenance-2` —
and not `["smelter-t1"]`. -/
theorem end_to_end_counterexample :
    (convert c1Products c1Mnb).map (fun o => o.recipes.map Recipe.producers)
      = Except.ok [["smelter-1"]]
    ∧ (["smelter-1"] : List String) ≠ ["smelter-t1"] :=
  ⟨rfl, by decide⟩

/-- C1 (amended): for the minimal products document with one countable
product `Product_Iron` named `Iron` and the machines document with one
building `SmelterT1` (0 workers, 0 electricity, empty maintenance unit)
holding one recipe `SmeltIron` with no inputs and output `{Iron: 1}`, the
output recipe list has exactly one entry, with id `smelt-iron`, out
`{iron: 1}` and producers `[smelter-1]`. -/
theorem end_to_end_minimal :
    (convert c1Products c1Mnb).map
        (fun o => o.recipes.map (fun e => (e.id, e.out, e.producers)))
      = Except.ok [("smelt-iron", [("iron", (1 : Int))], ["smelter-1"])] := rfl

/-- C10: the disambiguation counter counts every encountered recipe,
including dropped ones: the first recipe normalizing to `foo-bar` is
dropped for an unresolved output, yet the second occurrence is emitted
with the suffixed id `foo-bar-a` (`chr(97) = a`), and the bare id
`foo-bar` is absent from the output recipe list. -/
theorem dropped_recipe_still_counts :
    ∃ o, convert c10Products c10Mnb = Except.ok o
      ∧ o.recipes.map Recipe.id = ["foo-bar-a"]
      ∧ "foo-bar" ∉ o.recipes.map Recipe.id
      ∧ "foo-bar-a" = "foo-bar" ++ "-" ++ String.singleton (Char.ofNat 97) :=
  ⟨_, rfl, by decide, by decide, by decide⟩

/-- Witness for C3: a one-entry list with the unknown name `Gold` errors;
a one-entry list with the known name `Iron` resolves fully. -/
theorem convertIngredientList_all_or_nothing_witness :
    (∃ nm, convertIngredientList [("Iron", "iron")] [⟨"Gold", 2⟩] = .error nm
      ∧ dictGet [("Iron", "iron")] nm = none
      ∧ ∃ i ∈ [(⟨"Gold", 2⟩ : RawIngredient)], i.name = nm)
    ∧ (∃ m, convertIngredientList [("Iron", "iron")] [⟨"Iron", 3⟩] = .ok m
      ∧ (∀ i ∈ [(⟨"Iron", 3⟩ : RawIngredient)], ∀ pid,
          dictGet [("Iron", "iron")] i.name = some pid → (dictGet m pid).isSome)
      ∧ (∀ p ∈ m, ∃ i ∈ [(⟨"Iron", 3⟩ : RawIngredient)],
          dictGet [("Iron", "iron")] i.name = some p.1 ∧ p.2 = i.quantity)) :=
  ⟨(convertIngredientList_all_or_nothing [("Iron", "iron")] [⟨"Gold", 2⟩]).1 (by decide),
   (convertIngredientList_all_or_nothing [("Iron", "iron")] [⟨"Iron", 3⟩]).2 (by decide)⟩
